import Mathlib

/-!
Verification of the WLED build-time asset packer (`tools/cdata.js`).

The packer reads web-interface asset files, optionally minifies them,
optionally gzips them, and renders them as C array / raw-string literals
inside generated headers.  JavaScript strings and Node buffers are modelled
as `List Nat` (one entry per byte / UTF-16 code unit); the file system,
the external minifiers (`clean-css`, `html-minifier`) and zlib's gzip are
modelled as explicit function parameters, so every pipeline stage is an
executable Lean function mirroring the source.
-/

namespace Cdata

/-- Byte/code-unit list of a 7-bit ASCII Lean string literal. -/
def asciiStr (s : String) : List Nat :=
  s.data.map Char.toNat

/-- A thrown JavaScript error, reduced to the `message` the packer inspects. -/
structure JsError where
  message : List Nat
deriving DecidableEq, Repr

deriving instance DecidableEq for Except

/-- One `console.warn` emission of the packer, tagged by call site. -/
inductive Warn where
  /-- `console.warn("Unknown filter: " + type)` in `filter`. -/
  | unknownFilter (text : List Nat)
  /-- `console.warn("Unknown method: " + s.method)` in `specToChunk`. -/
  | unknownMethod (text : List Nat)
  /-- `console.warn("Failed " + ... , truncatedMessage)` in `writeChunks`. -/
  | failed (text : List Nat) (msg : List Nat)
deriving DecidableEq, Repr

/-- Hexadecimal digit character (`value.toString(16)` digit alphabet). -/
def hexDigitChar (n : Nat) : Nat :=
  if n < 10 then 48 + n else 87 + n

/-- Two-digit hex rendering of one buffer byte:
`value.toString(16).padStart(2, "0")`.  For byte values `< 256` the JS
expression yields exactly the two digits `value / 16` and `value % 16`. -/
def toHexByte (v : Nat) : List Nat :=
  [hexDigitChar (v / 16), hexDigitChar (v % 16)]

/-- The 16-byte blocks cut by `buffer.slice(i, i + 16)` in `hexdump`'s loop. -/
def toBlocks (l : List Nat) : List (List Nat) :=
  match l with
  | [] => []
  | c :: rest => ((c :: rest).take 16) :: toBlocks ((c :: rest).drop 16)
termination_by l.length
decreasing_by
  simp only [List.length_drop, List.length_cons]
  omega

/-- One output line of `hexdump`: two leading spaces, then the block's
`"0x" + hex` entries joined by `", "`. -/
def hexLine (block : List Nat) : List Nat :=
  asciiStr "  " ++ List.intercalate (asciiStr ", ") (block.map (fun v => asciiStr "0x" ++ toHexByte v))

/-- `hexdump(buffer)`: hex lines of 16 bytes each, joined by `",\n"`. -/
def hexdump (buffer : List Nat) : List Nat :=
  List.intercalate (asciiStr ",\n") ((toBlocks buffer).map hexLine)

/-- Value of a hex digit character (inverse of `hexDigitChar`). -/
def fromHexDigit (c : Nat) : Nat :=
  if c < 58 then c - 48 else c - 87

/-- Decoder for the emitted hex text: reads every `0xHH` token back into a
byte, skipping formatting characters.  Used to state that the printed array
literal determines the compressed bytes exactly. -/
def hexParse : List Nat → List Nat
  | 48 :: 120 :: d1 :: d2 :: rest2 => (fromHexDigit d1 * 16 + fromHexDigit d2) :: hexParse rest2
  | _ :: rest => hexParse rest
  | [] => []

/-- Scanner behind JS `str.split(search)` for a non-empty `search`:
left-to-right, non-overlapping; `acc` holds the current part reversed. -/
def splitGo (sep : List Nat) (s : List Nat) (acc : List Nat) : List (List Nat) :=
  match s with
  | [] => [acc.reverse]
  | c :: rest =>
    if sep.isPrefixOf (c :: rest) then
      acc.reverse :: splitGo sep (rest.drop (sep.length - 1)) []
    else
      splitGo sep rest (c :: acc)
termination_by s.length
decreasing_by
  · simp only [List.length_drop, List.length_cons]
    omega
  · simp only [List.length_cons]
    omega

/-- JS `str.split(search)`, including the split-into-characters behaviour of
an empty separator. -/
def splitJS (search : List Nat) (s : List Nat) : List (List Nat) :=
  if search = [] then s.map (fun c => [c]) else splitGo search s []

/-- `strReplace(str, search, replacement) = str.split(search).join(replacement)`. -/
def strReplace (str search replacement : List Nat) : List Nat :=
  List.intercalate replacement (splitJS search str)

/-- Direct left-to-right replace-all; proven equal to `strReplace` for a
non-empty search string, and used to reason about it. -/
def replaceAll (sep r : List Nat) (s : List Nat) : List Nat :=
  match s with
  | [] => []
  | c :: rest =>
    if sep.isPrefixOf (c :: rest) then
      r ++ replaceAll sep r (rest.drop (sep.length - 1))
    else
      c :: replaceAll sep r rest
termination_by s.length
decreasing_by
  · simp only [List.length_drop, List.length_cons]
    omega
  · simp only [List.length_cons]
    omega

/-- The literal version placeholder `"##VERSION##"`. -/
def versionToken : List Nat := asciiStr "##VERSION##"

/-- First upstream URL replaced by `adoptVersionAndRepo`. -/
def atulineUrl : List Nat := asciiStr "https://github.com/atuline/WLED"

/-- Second upstream URL replaced by `adoptVersionAndRepo`. -/
def aircoookieUrl : List Nat := asciiStr "https://github.com/Aircoookie/WLED"

/-- Ambient substitution values from `package.json`: `repository.url` (absent
when `packageJson.repository` is missing) and `version`. -/
structure RenderCtx where
  repoUrl : Option (List Nat)
  version : Option (List Nat)

/-- JS truthiness of a string-or-undefined value: defined and non-empty. -/
def jsTruthy : Option (List Nat) → Bool
  | none => false
  | some s => s ≠ []

/-- `repoUrl.replace(/^git\+/, "")`: drop one anchored leading `git+`. -/
def dropGitPlus (u : List Nat) : List Nat :=
  if (asciiStr "git+").isPrefixOf u then u.drop (asciiStr "git+").length else u

/-- `repoUrl.replace(/\.git$/, "")`: drop one anchored trailing `.git`. -/
def dropDotGit (u : List Nat) : List Nat :=
  if (asciiStr ".git").isSuffixOf u then u.take (u.length - (asciiStr ".git").length) else u

/-- `adoptVersionAndRepo(html)`: replace the two upstream repository URLs by
the normalized `repository.url`, then replace every `##VERSION##` by the
project version; each substitution is guarded by JS truthiness of its
metadata value. -/
def adoptVersionAndRepo (ctx : RenderCtx) (html : List Nat) : List Nat :=
  let html1 :=
    if jsTruthy ctx.repoUrl then
      let u := dropDotGit (dropGitPlus (ctx.repoUrl.getD []))
      strReplace (strReplace html atulineUrl u) aircoookieUrl u
    else html
  if jsTruthy ctx.version then
    strReplace html1 versionToken (ctx.version.getD [])
  else html1

/-- `filter(str, type)`: version/repo substitution first, then dispatch on
the filter name; an unrecognized name warns and passes the text through.
The external minifiers are explicit function parameters `cssMin`/`htmlMin`
(`clean-css` and `html-minifier` in the source). -/
def filter (ctx : RenderCtx) (cssMin htmlMin : List Nat → List Nat)
    (str : List Nat) (type : Option (List Nat)) : List Nat × List Warn :=
  let str := adoptVersionAndRepo ctx str
  match type with
  | none => (str, [])
  | some t =>
    if t = asciiStr "css-minify" then (cssMin str, [])
    else if t = asciiStr "html-minify" then (htmlMin str, [])
    else (str, [Warn.unknownFilter (asciiStr "Unknown filter: " ++ t)])

/-- One entry of the spec arrays passed to `writeChunks`. -/
structure AssetSpec where
  file : List Nat
  name : List Nat
  prepend : Option (List Nat)
  append : Option (List Nat)
  method : List Nat
  filter : Option (List Nat)
  mangle : Option (List Nat → List Nat)

/-- `s.mangle ? s.mangle(chunk) : chunk`. -/
def applyMangle : Option (List Nat → List Nat) → List Nat → List Nat
  | some f, chunk => f chunk
  | none, chunk => chunk

/-- Node `buf.toString("ascii")`: decoding clears the high bit of every byte. -/
def toAscii (buf : List Nat) : List Nat :=
  buf.map (fun b => b % 128)

/-- The template literal of the `plaintext` branch of `specToChunk`, with the
already-filtered `content` sitting between the spec's prepend/append markers. -/
def plainChunk (srcDir file name pre app content : List Nat) : List Nat :=
  asciiStr "\n// Autogenerated from " ++ srcDir ++ asciiStr "/" ++ file ++
    asciiStr ", do not edit!!\nconst char " ++ name ++ asciiStr "[] PROGMEM = R\"" ++
    pre ++ content ++ app ++ asciiStr "\";\n\n"

/-- The numeric value emitted as `<name>_length` by the `binary` branch:
`result.length` where `result = hexdump(buf)` — the character count of the
rendered hex text, not the byte count of `buf`. -/
def binaryLengthValue (buf : List Nat) : Nat :=
  (hexdump buf).length

/-- The template literal of the `binary` branch of `specToChunk`. -/
def binaryChunk (srcDir file name : List Nat) (buf : List Nat) : List Nat :=
  asciiStr "\n// Autogenerated from " ++ srcDir ++ asciiStr "/" ++ file ++
    asciiStr ", do not edit!!\nconst uint16_t " ++ name ++ asciiStr "_length = " ++
    asciiStr (toString (binaryLengthValue buf)) ++
    asciiStr ";\nconst uint8_t " ++ name ++ asciiStr "[] PROGMEM = \x7b\n" ++
    hexdump buf ++ asciiStr "\n\x7d;\n\n"

/-- `specToChunk(srcDir, s)`, with the file system `fs` (Node `readFileSync`:
bytes on success, a thrown error otherwise) explicit.  Returns the rendered
chunk — `.ok none` models the JS `undefined` returned for an unknown
method — together with the warnings printed on the way. -/
def specToChunk (ctx : RenderCtx) (cssMin htmlMin : List Nat → List Nat)
    (fs : List Nat → Except JsError (List Nat)) (srcDir : List Nat)
    (s : AssetSpec) : Except JsError (Option (List Nat)) × List Warn :=
  if s.method = asciiStr "plaintext" then
    match fs (srcDir ++ asciiStr "/" ++ s.file) with
    | .error e => (.error e, [])
    | .ok buf =>
      let str := toAscii buf
      let fr := filter ctx cssMin htmlMin str s.filter
      let chunk := plainChunk srcDir s.file s.name (s.prepend.getD []) (s.append.getD []) fr.1
      (.ok (some (applyMangle s.mangle chunk)), fr.2)
  else if s.method = asciiStr "binary" then
    match fs (srcDir ++ asciiStr "/" ++ s.file) with
    | .error e => (.error e, [])
    | .ok buf =>
      (.ok (some (applyMangle s.mangle (binaryChunk srcDir s.file s.name buf))), [])
  else
    (.ok none, [Warn.unknownMethod (asciiStr "Unknown method: " ++ s.method)])

/-- What `src += specToChunk(...)` appends: nothing when the spec threw
(the `catch` swallows it), the 9 characters of `"undefined"` when the JS
value `undefined` is coerced into the string, else the chunk itself. -/
def chunkAppend : Except JsError (Option (List Nat)) → List Nat
  | .error _ => []
  | .ok none => asciiStr "undefined"
  | .ok (some c) => c

/-- `e.message.length > 60 ? e.message.substring(0, 60) : e.message`. -/
def truncateMsg (m : List Nat) : List Nat :=
  if m.length > 60 then m.take 60 else m

/-- The warnings produced while processing one spec: the catch-handler's
`Failed <name> from <srcDir>/<file>` warning with the truncated error
message, or the warnings `specToChunk` itself printed. -/
def specWarns (srcDir : List Nat) (s : AssetSpec)
    (r : Except JsError (Option (List Nat)) × List Warn) : List Warn :=
  match r.1 with
  | .error e =>
    [Warn.failed (asciiStr "Failed " ++ s.name ++ asciiStr " from " ++ srcDir ++
      asciiStr "/" ++ s.file) (truncateMsg e.message)]
  | .ok _ => r.2

/-- The fixed header comment `writeChunks` starts its buffer with. -/
def chunkHeader : List Nat :=
  asciiStr "/*\n * More web UI HTML source arrays.\n * This file is auto generated, please don\x27t make any changes manually.\n * Instead, see https://github.com/Aircoookie/WLED/wiki/Add-own-functionality#web-ui\n * to find out how to easily modify the web UI source!\n */ \n"

/-- The text `src += specToChunk(srcDir, s)` appends for one spec inside the
`try` of `writeChunks` (empty when the spec threw and the `catch` ran). -/
def chunkTextOf (ctx : RenderCtx) (cssMin htmlMin : List Nat → List Nat)
    (fs : List Nat → Except JsError (List Nat)) (srcDir : List Nat)
    (s : AssetSpec) : List Nat :=
  chunkAppend (specToChunk ctx cssMin htmlMin fs srcDir s).1

/-- The warnings `writeChunks` prints for one spec. -/
def warnsOf (ctx : RenderCtx) (cssMin htmlMin : List Nat → List Nat)
    (fs : List Nat → Except JsError (List Nat)) (srcDir : List Nat)
    (s : AssetSpec) : List Warn :=
  specWarns srcDir s (specToChunk ctx cssMin htmlMin fs srcDir s)

/-- `writeChunks(srcDir, specs, resultFile)`: fold the specs in order over the
append-only buffer, then perform the single `writeFileSync` at the end.
Returns the writes performed (exactly one) and the warnings printed;
returning at all models the successful exit of the orchestrator. -/
def writeChunks (ctx : RenderCtx) (cssMin htmlMin : List Nat → List Nat)
    (fs : List Nat → Except JsError (List Nat)) (srcDir : List Nat)
    (specs : List AssetSpec) (resultFile : List Nat) :
    List (List Nat × List Nat) × List Warn :=
  let res := specs.foldl
    (fun acc s =>
      (acc.1 ++ chunkTextOf ctx cssMin htmlMin fs srcDir s,
       acc.2 ++ warnsOf ctx cssMin htmlMin fs srcDir s))
    (chunkHeader, [])
  ([(resultFile, res.1)], res.2)

/-- `html = adoptVersionAndRepo(html); zlib.gzip(html, ...)`: the compression
stage of `writeHtmlGzipped`, with zlib's gzip at `Z_BEST_COMPRESSION` an
explicit function parameter. -/
def compressHtml (gzip : List Nat → Except JsError (List Nat))
    (ctx : RenderCtx) (html : List Nat) : Except JsError (List Nat) :=
  gzip (adoptVersionAndRepo ctx html)

/-- The template literal written by `writeHtmlGzipped`: here `result.length`
really is the byte count of the gzip output, since `result` is the compressed
buffer and the hex text is the separate variable `array`. -/
def renderIndexChunk (sourceFile : List Nat) (result : List Nat) : List Nat :=
  asciiStr "/*\n * Binary array for the Web UI.\n * gzip is used for smaller size and improved speeds.\n * \n * Please see https://github.com/Aircoookie/WLED/wiki/Add-own-functionality#web-ui\n * to find out how to easily modify the web UI source!\n */\n \n// Autogenerated from " ++
    sourceFile ++ asciiStr ", do not edit!!\nconst uint16_t PAGE_index_L = " ++
    asciiStr (toString result.length) ++
    asciiStr ";\nconst uint8_t PAGE_index[] PROGMEM = \x7b\n" ++
    hexdump result ++ asciiStr "\n\x7d;\n"

/-- `writeHtmlGzipped(sourceFile, resultFile)`.  The inliner callback result
is `inl : (error?, html?)`; the code touches `html.length` before checking
`error`, so an undefined `html` throws a `TypeError` first, and a reported
inliner error is re-thrown; both abort before any write.  Only the full
success path performs the single `writeFileSync`. -/
def writeHtmlGzipped (gzip : List Nat → Except JsError (List Nat))
    (ctx : RenderCtx) (inl : Option JsError × Option (List Nat))
    (sourceFile resultFile : List Nat) :
    Except JsError (List (List Nat × List Nat)) :=
  match inl.2 with
  | none => .error ⟨asciiStr "TypeError: undefined has no length"⟩
  | some html =>
    match inl.1 with
    | some e => .error e
    | none =>
      match compressHtml gzip ctx html with
      | .error e => .error e
      | .ok result => .ok [(resultFile, renderIndexChunk sourceFile result)]

/-- Whether an `Except` is a thrown error. -/
def isErr : Except JsError (List (List Nat × List Nat)) → Bool
  | .error _ => true
  | .ok _ => false

/-- `pat` occurs somewhere inside `s`. -/
def occursIn (pat s : List Nat) : Prop :=
  ∃ a b, s = a ++ pat ++ b

end Cdata

namespace Cdata

theorem isPrefixOf_ex {a b : List Nat} : a.isPrefixOf b = true ↔ ∃ t, b = a ++ t := by
  induction a generalizing b with
  | nil => simp [List.isPrefixOf]
  | cons x xs ih =>
    cases b with
    | nil => simp [List.isPrefixOf]
    | cons y ys =>
      simp only [List.isPrefixOf, Bool.and_eq_true, beq_iff_eq, ih, List.cons_append,
        List.cons.injEq]
      constructor
      · rintro ⟨rfl, t, rfl⟩
        exact ⟨t, rfl, rfl⟩
      · rintro ⟨t, rfl, rfl⟩
        exact ⟨rfl, t, rfl⟩

theorem intercalate_single (r x : List Nat) : List.intercalate r [x] = x := by
  simp [List.intercalate]

theorem intercalate_cons2 (r x y : List Nat) (l : List (List Nat)) :
    List.intercalate r (x :: y :: l) = x ++ r ++ List.intercalate r (y :: l) := by
  simp [List.intercalate, List.intersperse]

theorem splitGo_ne_nil (sep : List Nat) : ∀ n s acc, s.length ≤ n → splitGo sep s acc ≠ [] := by
  intro n
  induction n with
  | zero =>
    intro s acc hs
    rw [List.length_eq_zero.mp (Nat.le_zero.mp hs)]
    simp [splitGo]
  | succ n ih =>
    intro s acc hs
    match s with
    | [] => simp [splitGo]
    | c :: rest =>
      rw [splitGo]
      split
      · simp
      · exact ih rest (c :: acc) (by simp at hs; omega)

theorem splitGo_join (sep r : List Nat) :
    ∀ n s acc, s.length ≤ n →
      List.intercalate r (splitGo sep s acc) = acc.reverse ++ replaceAll sep r s := by
  intro n
  induction n with
  | zero =>
    intro s acc hs
    rw [List.length_eq_zero.mp (Nat.le_zero.mp hs)]
    simp [splitGo, replaceAll, intercalate_single]
  | succ n ih =>
    intro s acc hs
    match s with
    | [] => simp [splitGo, replaceAll, intercalate_single]
    | c :: rest =>
      rw [splitGo, replaceAll]
      by_cases h : sep.isPrefixOf (c :: rest)
      · rw [if_pos h, if_pos h]
        have hlen : (rest.drop (sep.length - 1)).length ≤ n := by
          simp only [List.length_drop]
          simp at hs
          omega
        match hsg : splitGo sep (rest.drop (sep.length - 1)) [] with
        | [] => exact absurd hsg (splitGo_ne_nil sep n _ [] hlen)
        | y :: l =>
          rw [intercalate_cons2]
          have := ih (rest.drop (sep.length - 1)) [] hlen
          rw [hsg] at this
          rw [this]
          simp [List.append_assoc]
      · rw [if_neg h, if_neg h]
        have := ih rest (c :: acc) (by simp at hs; omega)
        rw [this]
        simp

/-- `strReplace` coincides with direct left-to-right replacement for a
non-empty search string. -/
theorem strReplace_eq_replaceAll (str search r : List Nat) (hsep : search ≠ []) :
    strReplace str search r = replaceAll search r str := by
  rw [strReplace, splitJS, if_neg hsep]
  simpa using splitGo_join search r str.length str [] le_rfl

theorem not_occursIn_nil {pat : List Nat} (h : pat ≠ []) : ¬ occursIn pat [] := by
  rintro ⟨a, b, hab⟩
  have := congrArg List.length hab
  simp at this
  exact h (List.length_eq_zero.mp (by omega))

theorem occursIn_cons {p : List Nat} {c : Nat} {t : List Nat} :
    occursIn p (c :: t) → (∃ b, c :: t = p ++ b) ∨ occursIn p t := by
  rintro ⟨a, b, hab⟩
  match a with
  | [] => exact Or.inl ⟨b, by simpa using hab⟩
  | x :: a' =>
    simp only [List.cons_append, List.cons.injEq] at hab
    exact Or.inr ⟨a', b, hab.2⟩

theorem occursIn_append_elim {p : List Nat} (hp : p ≠ []) :
    ∀ a t, (∀ c ∈ a, c ∉ p) → occursIn p (a ++ t) → occursIn p t := by
  intro a
  induction a with
  | nil => exact fun t _ h => h
  | cons x a' ih =>
    intro t hdisj hocc
    rw [List.cons_append] at hocc
    rcases occursIn_cons hocc with ⟨b, hb⟩ | htail
    · match p, hp with
      | y :: p', _ =>
        simp only [List.cons_append, List.cons.injEq] at hb
        exact absurd (hb.1 ▸ List.mem_cons_self y p') (hdisj x (List.mem_cons_self x a'))
    · exact ih t (fun c hc => hdisj c (List.mem_cons_of_mem x hc)) htail

theorem replaceAll_isPrefixOf_inv {sep r : List Nat} (hr : r ≠ []) :
    ∀ (n : Nat) (s q : List Nat), s.length ≤ n → (∀ c ∈ q, c ∉ r) →
      q.isPrefixOf (replaceAll sep r s) = true → q.isPrefixOf s = true := by
  intro n
  induction n with
  | zero =>
    intro s q hs hdisj hpre
    rw [List.length_eq_zero.mp (Nat.le_zero.mp hs)] at hpre ⊢
    simpa [replaceAll] using hpre
  | succ n ih =>
    intro s q hs hdisj hpre
    match s with
    | [] => simpa [replaceAll] using hpre
    | c :: rest =>
      rw [replaceAll] at hpre
      by_cases h : sep.isPrefixOf (c :: rest)
      · rw [if_pos h] at hpre
        match q with
        | [] => simp [List.isPrefixOf]
        | x :: q' =>
          match r, hr with
          | rh :: rt, _ =>
            obtain ⟨t, ht⟩ := isPrefixOf_ex.mp hpre
            simp only [List.cons_append, List.append_assoc, List.cons.injEq] at ht
            exact absurd (ht.1 ▸ List.mem_cons_self rh rt)
              (hdisj x (List.mem_cons_self x q'))
      · rw [if_neg h] at hpre
        match q with
        | [] => simp [List.isPrefixOf]
        | x :: q' =>
          simp only [List.isPrefixOf, Bool.and_eq_true, beq_iff_eq] at hpre ⊢
          refine ⟨hpre.1, ?_⟩
          exact ih rest q' (by simp at hs; omega)
            (fun d hd => hdisj d (List.mem_cons_of_mem x hd)) hpre.2

/-- Left-to-right replace-all leaves no occurrence of the search string when
the replacement is non-empty and shares no character with it. -/
theorem replaceAll_no_occ {sep r : List Nat} (hsep : sep ≠ []) (hr : r ≠ [])
    (hdisj : ∀ c ∈ r, c ∉ sep) :
    ∀ n s, s.length ≤ n → ¬ occursIn sep (replaceAll sep r s) := by
  intro n
  induction n with
  | zero =>
    intro s hs
    rw [List.length_eq_zero.mp (Nat.le_zero.mp hs)]
    simpa [replaceAll] using not_occursIn_nil hsep
  | succ n ih =>
    intro s hs
    match s with
    | [] => simpa [replaceAll] using not_occursIn_nil hsep
    | c :: rest =>
      rw [replaceAll]
      by_cases h : sep.isPrefixOf (c :: rest)
      · rw [if_pos h]
        intro hocc
        have hlen : (rest.drop (sep.length - 1)).length ≤ n := by
          simp only [List.length_drop]
          simp at hs
          omega
        exact ih _ hlen (occursIn_append_elim hsep r _ hdisj hocc)
      · rw [if_neg h]
        intro hocc
        rcases occursIn_cons hocc with ⟨b, hb⟩ | htail
        · have hpre : sep.isPrefixOf (c :: replaceAll sep r rest) = true :=
            isPrefixOf_ex.mpr ⟨b, hb⟩
          have hpre2 : sep.isPrefixOf (replaceAll sep r (c :: rest)) = true := by
            rw [replaceAll, if_neg h]
            exact hpre
          have hdisj2 : ∀ d ∈ sep, d ∉ r := fun d hd hdr => hdisj d hdr hd
          exact h (replaceAll_isPrefixOf_inv hr (c :: rest).length (c :: rest) sep
            le_rfl hdisj2 hpre2)
        · exact ih rest (by simp at hs; omega) htail

/-- A head occurrence of the search string is rewritten to the replacement. -/
theorem replaceAll_head_occ {sep : List Nat} (r t : List Nat) (hsep : sep ≠ []) :
    replaceAll sep r (sep ++ t) = r ++ replaceAll sep r t := by
  match sep, hsep with
  | x :: sep', _ =>
    rw [List.cons_append, replaceAll,
      if_pos (isPrefixOf_ex.mpr ⟨t, by simp⟩)]
    congr 1
    congr 1
    simp [List.drop_left']

theorem asciiStr_0x : asciiStr "0x" = [48, 120] := by decide

theorem asciiStr_commaNl : asciiStr ",\n" = [44, 10] := by decide

theorem asciiStr_twoSpaces : asciiStr "  " = [32, 32] := by decide

theorem asciiStr_commaSpace : asciiStr ", " = [44, 32] := by decide

theorem fromHex_hexDigitChar {n : Nat} (h : n < 16) :
    fromHexDigit (hexDigitChar n) = n := by
  by_cases hn : n < 10
  · rw [hexDigitChar, if_pos hn, fromHexDigit, if_pos (by omega)]
    omega
  · rw [hexDigitChar, if_neg hn, fromHexDigit, if_neg (by omega)]
    omega

theorem hexParse_skip32 (t : List Nat) : hexParse (32 :: t) = hexParse t := rfl

theorem hexParse_skip44 (t : List Nat) : hexParse (44 :: t) = hexParse t := rfl

theorem hexParse_skip10 (t : List Nat) : hexParse (10 :: t) = hexParse t := rfl

theorem hexParse_skip_commaSpace (u : List Nat) :
    hexParse (asciiStr ", " ++ u) = hexParse u := by
  rw [asciiStr_commaSpace]
  rfl

theorem hexParse_skip_commaNl (u : List Nat) :
    hexParse (asciiStr ",\n" ++ u) = hexParse u := by
  rw [asciiStr_commaNl]
  rfl

theorem hexParse_skip_twoSpaces (u : List Nat) :
    hexParse (asciiStr "  " ++ u) = hexParse u := by
  rw [asciiStr_twoSpaces]
  rfl

theorem hexParse_entry {v : Nat} (hv : v < 256) (u : List Nat) :
    hexParse (asciiStr "0x" ++ (toHexByte v ++ u)) = v :: hexParse u := by
  rw [asciiStr_0x, toHexByte]
  rw [show [48, 120] ++ ([hexDigitChar (v / 16), hexDigitChar (v % 16)] ++ u)
      = 48 :: 120 :: hexDigitChar (v / 16) :: hexDigitChar (v % 16) :: u by simp]
  rw [show hexParse (48 :: 120 :: hexDigitChar (v / 16) :: hexDigitChar (v % 16) :: u)
      = (fromHexDigit (hexDigitChar (v / 16)) * 16 + fromHexDigit (hexDigitChar (v % 16)))
        :: hexParse u from rfl]
  rw [fromHex_hexDigitChar (by omega), fromHex_hexDigitChar (by omega)]
  congr 1
  omega

theorem hexParse_body :
    ∀ block : List Nat, (∀ v ∈ block, v < 256) → ∀ t : List Nat,
      hexParse (List.intercalate (asciiStr ", ")
        (block.map (fun v => asciiStr "0x" ++ toHexByte v)) ++ t) = block ++ hexParse t := by
  intro block
  induction block with
  | nil =>
    intro _ t
    simp [List.intercalate]
  | cons v bs ih =>
    intro hlt t
    have hv : v < 256 := hlt v (List.mem_cons_self v bs)
    have ih' := fun u => ih (fun w hw => hlt w (List.mem_cons_of_mem v hw)) u
    cases bs with
    | nil =>
      simp only [List.map_cons, List.map_nil, intercalate_single, List.append_assoc]
      rw [hexParse_entry hv]
      simp
    | cons v2 bs2 =>
      simp only [List.map_cons] at ih' ⊢
      rw [intercalate_cons2]
      simp only [List.append_assoc]
      rw [hexParse_entry hv, hexParse_skip_commaSpace, ih' t]
      simp

theorem hexParse_line {b : List Nat} (hb : ∀ v ∈ b, v < 256) (u : List Nat) :
    hexParse (hexLine b ++ u) = b ++ hexParse u := by
  rw [hexLine]
  simp only [List.append_assoc]
  rw [hexParse_skip_twoSpaces, hexParse_body b hb u]

theorem hexParse_lines :
    ∀ blocks : List (List Nat), (∀ b ∈ blocks, ∀ v ∈ b, v < 256) → ∀ t : List Nat,
      hexParse (List.intercalate (asciiStr ",\n") (blocks.map hexLine) ++ t)
        = blocks.flatten ++ hexParse t := by
  intro blocks
  induction blocks with
  | nil =>
    intro _ t
    simp [List.intercalate]
  | cons b bs ih =>
    intro hlt t
    have hb : ∀ v ∈ b, v < 256 := hlt b (List.mem_cons_self b bs)
    have ih' := fun u => ih (fun c hc v hv => hlt c (List.mem_cons_of_mem b hc) v hv) u
    cases bs with
    | nil =>
      simp only [List.map_cons, List.map_nil, intercalate_single, List.flatten_cons,
        List.flatten_nil, List.append_nil]
      rw [hexParse_line hb t]
    | cons b2 bs2 =>
      simp only [List.map_cons] at ih' ⊢
      rw [intercalate_cons2]
      simp only [List.append_assoc]
      rw [hexParse_line hb, hexParse_skip_commaNl, ih' t]
      simp

theorem toBlocks_flatten : ∀ (n : Nat) (l : List Nat), l.length ≤ n →
    (toBlocks l).flatten = l := by
  intro n
  induction n with
  | zero =>
    intro l hl
    rw [List.length_eq_zero.mp (Nat.le_zero.mp hl)]
    simp [toBlocks]
  | succ n ih =>
    intro l hl
    match l with
    | [] => simp [toBlocks]
    | c :: rest =>
      rw [toBlocks]
      simp only [List.flatten_cons]
      rw [ih ((c :: rest).drop 16) (by simp at hl ⊢; omega)]
      exact List.take_append_drop 16 (c :: rest)

theorem toBlocks_mem : ∀ (n : Nat) (l : List Nat), l.length ≤ n →
    ∀ b ∈ toBlocks l, ∀ v ∈ b, v ∈ l := by
  intro n
  induction n with
  | zero =>
    intro l hl
    rw [List.length_eq_zero.mp (Nat.le_zero.mp hl)]
    simp [toBlocks]
  | succ n ih =>
    intro l hl b hb v hv
    match l with
    | [] => simp [toBlocks] at hb
    | c :: rest =>
      rw [toBlocks] at hb
      rcases List.mem_cons.mp hb with rfl | hb2
      · exact List.take_subset 16 (c :: rest) hv
      · exact List.drop_subset 16 (c :: rest)
          (ih ((c :: rest).drop 16) (by simp at hl ⊢; omega) b hb2 v hv)

/-- Decoding the printed hex text of `hexdump` recovers the byte buffer. -/
theorem hexParse_hexdump (bs : List Nat) (h : ∀ v ∈ bs, v < 256) :
    hexParse (hexdump bs) = bs := by
  have := hexParse_lines (toBlocks bs)
    (fun b hb v hv => h v (toBlocks_mem bs.length bs le_rfl b hb v hv)) []
  rw [List.append_nil] at this
  rw [hexdump, this]
  rw [show hexParse [] = [] from rfl, List.append_nil]
  exact toBlocks_flatten bs.length bs le_rfl

theorem foldl_chunks (f : AssetSpec → List Nat) (g : AssetSpec → List Warn) :
    ∀ (specs : List AssetSpec) (h : List Nat) (w : List Warn),
      specs.foldl (fun acc s => (acc.1 ++ f s, acc.2 ++ g s)) (h, w)
        = (h ++ (specs.map f).flatten, w ++ (specs.map g).flatten) := by
  intro specs
  induction specs with
  | nil => simp
  | cons s ss ih =>
    intro h w
    simp only [List.foldl_cons, List.map_cons, List.flatten_cons]
    rw [ih]
    simp [List.append_assoc]

/-- The orchestrator's output: the fixed header followed by the per-spec
chunks in spec order, written once, plus the per-spec warnings in order. -/
theorem writeChunks_decomp (ctx : RenderCtx) (cssMin htmlMin : List Nat → List Nat)
    (fs : List Nat → Except JsError (List Nat)) (srcDir : List Nat)
    (specs : List AssetSpec) (resultFile : List Nat) :
    writeChunks ctx cssMin htmlMin fs srcDir specs resultFile
      = ([(resultFile, chunkHeader ++ (specs.map (chunkTextOf ctx cssMin htmlMin fs srcDir)).flatten)],
         (specs.map (warnsOf ctx cssMin htmlMin fs srcDir)).flatten) := by
  rw [writeChunks]
  rw [foldl_chunks (chunkTextOf ctx cssMin htmlMin fs srcDir) (warnsOf ctx cssMin htmlMin fs srcDir)]
  simp

theorem toAscii_id {buf : List Nat} (h : ∀ b ∈ buf, b < 128) : toAscii buf = buf := by
  induction buf with
  | nil => rfl
  | cons b bs ih =>
    simp only [toAscii, List.map_cons] at ih ⊢
    rw [Nat.mod_eq_of_lt (h b (List.mem_cons_self b bs)),
      ih (fun c hc => h c (List.mem_cons_of_mem b hc))]

theorem truncateMsg_le (m : List Nat) : (truncateMsg m).length ≤ 60 := by
  rw [truncateMsg]
  split
  · simp
  · omega

example : hexdump [0] = asciiStr "  0x00" := by
  simp [hexdump, toBlocks, hexLine, toHexByte, hexDigitChar, asciiStr, List.intercalate]

example : hexdump [0, 255, 16] = asciiStr "  0x00, 0xff, 0x10" := by
  simp [hexdump, toBlocks, hexLine, toHexByte, hexDigitChar, asciiStr, List.intercalate]

example : strReplace (asciiStr "ab") (asciiStr "b") (asciiStr "c") = asciiStr "ac" := by
  simp [strReplace, splitJS, asciiStr, List.intercalate]
  norm_num [splitGo, List.isPrefixOf]

/-- C1: the claim says the `<name>_length` constant of a `binary` chunk equals
the byte length of the source file.  The code instead emits
`result.length` where `result = hexdump(buf)` is the rendered hex text, so a
one-byte file (single byte `0x00`, rendered as the 6 characters `  0x00`)
gets `<name>_length = 6`, not `1`.  `binaryChunk` embeds exactly
`binaryLengthValue buf` in the generated text, so the emitted constant is
`6 ≠ 1` at this input: the code contradicts the spec's clear intent (the
parallel constant `PAGE_index_L` in `writeHtmlGzipped` correctly uses the
byte count of the compressed buffer). -/
theorem c1_binary_length_constant_bug :
    binaryLengthValue [0] = 6 ∧ List.length [(0 : Nat)] = 1 ∧ (6 : Nat) ≠ 1 := by
  refine ⟨?_, rfl, by decide⟩
  rw [binaryLengthValue]
  simp [hexdump, toBlocks, hexLine, toHexByte, hexDigitChar, asciiStr, List.intercalate]

/-- C7: for every ordered sequence of specs and destination path, the batch
orchestrator's output is the fixed header comment followed by the rendered
chunks (dispatched on each spec's `method` inside `specToChunk`) concatenated
in exactly the spec order, and exactly one write of that buffer to the
destination is performed at the end. -/
theorem c7_batch_concatenation (ctx : RenderCtx) (cssMin htmlMin : List Nat → List Nat)
    (fs : List Nat → Except JsError (List Nat)) (srcDir : List Nat)
    (specs : List AssetSpec) (resultFile : List Nat) :
    writeChunks ctx cssMin htmlMin fs srcDir specs resultFile
      = ([(resultFile, chunkHeader
            ++ (specs.map (chunkTextOf ctx cssMin htmlMin fs srcDir)).flatten)],
         (specs.map (warnsOf ctx cssMin htmlMin fs srcDir)).flatten) :=
  writeChunks_decomp ctx cssMin htmlMin fs srcDir specs resultFile

/-- C10 (implicit): a spec whose method is neither `"plaintext"` nor
`"binary"` makes `specToChunk` warn and return the JS value `undefined`
(our `.ok none`); `writeChunks` then appends the 9-character literal text
`"undefined"` into the output buffer, so the written file contains that text
instead of the spec being skipped. -/
theorem c10_unknown_method_appends_undefined (ctx : RenderCtx)
    (cssMin htmlMin : List Nat → List Nat) (fs : List Nat → Except JsError (List Nat))
    (srcDir : List Nat) (s : AssetSpec) (pre post : List AssetSpec) (resultFile : List Nat)
    (h1 : s.method ≠ asciiStr "plaintext") (h2 : s.method ≠ asciiStr "binary") :
    specToChunk ctx cssMin htmlMin fs srcDir s
        = (.ok none, [Warn.unknownMethod (asciiStr "Unknown method: " ++ s.method)])
      ∧ chunkTextOf ctx cssMin htmlMin fs srcDir s = asciiStr "undefined"
      ∧ (asciiStr "undefined").length = 9
      ∧ (writeChunks ctx cssMin htmlMin fs srcDir (pre ++ s :: post) resultFile).1
          = [(resultFile, chunkHeader
              ++ (pre.map (chunkTextOf ctx cssMin htmlMin fs srcDir)).flatten
              ++ asciiStr "undefined"
              ++ (post.map (chunkTextOf ctx cssMin htmlMin fs srcDir)).flatten)] := by
  have hchunk : specToChunk ctx cssMin htmlMin fs srcDir s
      = (.ok none, [Warn.unknownMethod (asciiStr "Unknown method: " ++ s.method)]) := by
    rw [specToChunk, if_neg h1, if_neg h2]
  have htext : chunkTextOf ctx cssMin htmlMin fs srcDir s = asciiStr "undefined" := by
    rw [chunkTextOf, hchunk]
    rfl
  refine ⟨hchunk, htext, by decide, ?_⟩
  rw [writeChunks_decomp]
  simp only [List.map_append, List.map_cons, List.flatten_append, List.flatten_cons, htext]
  simp [List.append_assoc]

/-- C10 witness: a concrete spec with method `"xmlwrap"` is rendered as the
literal text `undefined` in the output of a concrete batch. -/
theorem c10_witness :
    specToChunk ⟨none, none⟩ id id (fun _ => .ok [1]) (asciiStr "d")
        ⟨asciiStr "x.bin", asciiStr "X", none, none, asciiStr "xmlwrap", none, none⟩
        = (.ok none, [Warn.unknownMethod (asciiStr "Unknown method: " ++ asciiStr "xmlwrap")])
      ∧ chunkTextOf ⟨none, none⟩ id id (fun _ => .ok [1]) (asciiStr "d")
          ⟨asciiStr "x.bin", asciiStr "X", none, none, asciiStr "xmlwrap", none, none⟩
        = asciiStr "undefined"
      ∧ (asciiStr "undefined").length = 9
      ∧ (writeChunks ⟨none, none⟩ id id (fun _ => .ok [1]) (asciiStr "d")
          ([] ++ ⟨asciiStr "x.bin", asciiStr "X", none, none, asciiStr "xmlwrap", none, none⟩ :: [])
          (asciiStr "out.h")).1
        = [(asciiStr "out.h", chunkHeader
            ++ (([] : List AssetSpec).map (chunkTextOf ⟨none, none⟩ id id (fun _ => .ok [1]) (asciiStr "d"))).flatten
            ++ asciiStr "undefined"
            ++ (([] : List AssetSpec).map (chunkTextOf ⟨none, none⟩ id id (fun _ => .ok [1]) (asciiStr "d"))).flatten)] :=
  c10_unknown_method_appends_undefined ⟨none, none⟩ id id (fun _ => .ok [1]) (asciiStr "d")
    ⟨asciiStr "x.bin", asciiStr "X", none, none, asciiStr "xmlwrap", none, none⟩ [] []
    (asciiStr "out.h") (by decide) (by decide)

/-- C6: an unrecognized (present) filter name skips minification and passes
the content through exactly as the no-filter case does, emitting only the
`Unknown filter` warning; no error is raised (`filter` is total), and a
plaintext spec carrying such a filter still renders its chunk normally, so
the batch continues. -/
theorem c6_unknown_filter_passthrough (ctx : RenderCtx)
    (cssMin htmlMin : List Nat → List Nat) (str t : List Nat)
    (h1 : t ≠ asciiStr "css-minify") (h2 : t ≠ asciiStr "html-minify") :
    filter ctx cssMin htmlMin str (some t)
        = ((filter ctx cssMin htmlMin str none).1,
           [Warn.unknownFilter (asciiStr "Unknown filter: " ++ t)])
      ∧ ∀ (fs : List Nat → Except JsError (List Nat)) (srcDir : List Nat)
          (s : AssetSpec) (buf : List Nat),
          s.method = asciiStr "plaintext" → s.filter = some t →
          fs (srcDir ++ asciiStr "/" ++ s.file) = .ok buf →
          (specToChunk ctx cssMin htmlMin fs srcDir s).1
            = .ok (some (applyMangle s.mangle (plainChunk srcDir s.file s.name
                (s.prepend.getD []) (s.append.getD [])
                (filter ctx cssMin htmlMin (toAscii buf) none).1))) := by
  have hfil : ∀ u : List Nat, filter ctx cssMin htmlMin u (some t)
      = ((filter ctx cssMin htmlMin u none).1,
         [Warn.unknownFilter (asciiStr "Unknown filter: " ++ t)]) := by
    intro u
    simp only [filter]
    rw [if_neg h1, if_neg h2]
  refine ⟨hfil str, ?_⟩
  intro fs srcDir s buf hm hf hread
  rw [specToChunk, if_pos hm, hread]
  simp only [hf, hfil (toAscii buf)]

/-- C6 witness: the filter name `"foo"` passes a concrete stylesheet through
unchanged with an `Unknown filter: foo` warning, and a concrete plaintext
spec carrying it still renders. -/
theorem c6_witness :
    filter ⟨none, none⟩ id id (asciiStr "a\x7bcolor:red\x7d") (some (asciiStr "foo"))
        = ((filter ⟨none, none⟩ id id (asciiStr "a\x7bcolor:red\x7d") none).1,
           [Warn.unknownFilter (asciiStr "Unknown filter: " ++ asciiStr "foo")])
      ∧ (specToChunk ⟨none, none⟩ id id (fun _ => .ok (asciiStr "p")) (asciiStr "d")
          ⟨asciiStr "a.css", asciiStr "P", none, none, asciiStr "plaintext",
            some (asciiStr "foo"), none⟩).1
        = .ok (some (applyMangle none (plainChunk (asciiStr "d") (asciiStr "a.css")
            (asciiStr "P") [] []
            (filter ⟨none, none⟩ id id (toAscii (asciiStr "p")) none).1))) :=
  ⟨(c6_unknown_filter_passthrough ⟨none, none⟩ id id (asciiStr "a\x7bcolor:red\x7d")
      (asciiStr "foo") (by decide) (by decide)).1,
   (c6_unknown_filter_passthrough ⟨none, none⟩ id id (asciiStr "a\x7bcolor:red\x7d")
      (asciiStr "foo") (by decide) (by decide)).2
     (fun _ => .ok (asciiStr "p")) (asciiStr "d")
     ⟨asciiStr "a.css", asciiStr "P", none, none, asciiStr "plaintext",
       some (asciiStr "foo"), none⟩ (asciiStr "p") rfl rfl rfl⟩

/-- C4: if the inliner reports an error (or hands over no document at all —
the code even dereferences `html.length` before its error check), or gzip
fails on the substituted document, `writeHtmlGzipped` aborts with a thrown
error and performs no write; conversely any successful run implies the
inliner succeeded, compression succeeded, and exactly the rendered index
chunk was written. -/
theorem c4_fatal_error_aborts (gzip : List Nat → Except JsError (List Nat))
    (ctx : RenderCtx) (inl : Option JsError × Option (List Nat))
    (sourceFile resultFile : List Nat) :
    ((inl.1.isSome = true ∨ inl.2 = none) →
        isErr (writeHtmlGzipped gzip ctx inl sourceFile resultFile) = true)
      ∧ (∀ html e, inl.2 = some html → inl.1 = none →
          compressHtml gzip ctx html = .error e →
          writeHtmlGzipped gzip ctx inl sourceFile resultFile = .error e)
      ∧ (∀ ws, writeHtmlGzipped gzip ctx inl sourceFile resultFile = .ok ws →
          inl.1 = none ∧ ∃ html result, inl.2 = some html
            ∧ compressHtml gzip ctx html = .ok result
            ∧ ws = [(resultFile, renderIndexChunk sourceFile result)]) := by
  obtain ⟨eo, ho⟩ := inl
  refine ⟨?_, ?_, ?_⟩
  · rintro (h | h)
    · match eo, h with
      | some e, _ =>
        cases ho with
        | none => simp [writeHtmlGzipped, isErr]
        | some html => simp [writeHtmlGzipped, isErr]
    · simp only at h
      subst h
      simp [writeHtmlGzipped, isErr]
  · rintro html e h2 h1 hc
    simp only at h2 h1
    subst h2
    subst h1
    simp [writeHtmlGzipped, hc]
  · intro ws hws
    cases ho with
    | none => simp [writeHtmlGzipped] at hws
    | some html =>
      cases eo with
      | some e => simp [writeHtmlGzipped] at hws
      | none =>
        cases hc : compressHtml gzip ctx html with
        | error e =>
          simp [writeHtmlGzipped, hc] at hws
        | ok result =>
          simp only [writeHtmlGzipped, hc] at hws
          cases hws
          exact ⟨rfl, html, result, rfl, hc, rfl⟩

/-- C4 witness: a concrete failed inlining (error reported, no document)
aborts the run with an error, so no output file is produced. -/
theorem c4_witness :
    isErr (writeHtmlGzipped (fun b => .ok b) ⟨none, none⟩
      (some ⟨asciiStr "no such file css/index.css"⟩, none)
      (asciiStr "wled00/data/index.htm") (asciiStr "wled00/html_ui.h")) = true :=
  (c4_fatal_error_aborts (fun b => .ok b) ⟨none, none⟩
    (some ⟨asciiStr "no such file css/index.css"⟩, none)
    (asciiStr "wled00/data/index.htm") (asciiStr "wled00/html_ui.h")).1 (Or.inl rfl)

theorem specToChunk_fs_congr (ctx : RenderCtx) (cssMin htmlMin : List Nat → List Nat)
    (fs1 fs2 : List Nat → Except JsError (List Nat)) (srcDir : List Nat) (s : AssetSpec)
    (h : fs1 (srcDir ++ asciiStr "/" ++ s.file) = fs2 (srcDir ++ asciiStr "/" ++ s.file)) :
    specToChunk ctx cssMin htmlMin fs1 srcDir s = specToChunk ctx cssMin htmlMin fs2 srcDir s := by
  unfold specToChunk
  rw [h]

/-- C9: every pipeline stage of the orchestrator is a pure function of its
inputs, so the embedding makes two runs on equal inputs literally the same
value; this theorem sharpens that determinism claim: the produced output
file and warnings depend on the file system only through the files the specs
name, so identical input files and identical metadata yield byte-identical
output on repeated runs. -/
theorem c9_deterministic_output (ctx : RenderCtx) (cssMin htmlMin : List Nat → List Nat)
    (fs1 fs2 : List Nat → Except JsError (List Nat)) (srcDir : List Nat)
    (specs : List AssetSpec) (resultFile : List Nat)
    (hagree : ∀ s ∈ specs,
      fs1 (srcDir ++ asciiStr "/" ++ s.file) = fs2 (srcDir ++ asciiStr "/" ++ s.file)) :
    writeChunks ctx cssMin htmlMin fs1 srcDir specs resultFile
      = writeChunks ctx cssMin htmlMin fs2 srcDir specs resultFile := by
  rw [writeChunks_decomp, writeChunks_decomp]
  have h1 : specs.map (chunkTextOf ctx cssMin htmlMin fs1 srcDir)
      = specs.map (chunkTextOf ctx cssMin htmlMin fs2 srcDir) :=
    List.map_congr_left fun s hs => by
      unfold chunkTextOf
      rw [specToChunk_fs_congr ctx cssMin htmlMin fs1 fs2 srcDir s (hagree s hs)]
  have h2 : specs.map (warnsOf ctx cssMin htmlMin fs1 srcDir)
      = specs.map (warnsOf ctx cssMin htmlMin fs2 srcDir) :=
    List.map_congr_left fun s hs => by
      unfold warnsOf
      rw [specToChunk_fs_congr ctx cssMin htmlMin fs1 fs2 srcDir s (hagree s hs)]
  rw [h1, h2]

/-- C9 witness: two concrete file systems agreeing on the one file a
concrete spec names (but differing elsewhere) produce identical batch
output. -/
theorem c9_witness :
    writeChunks ⟨none, none⟩ id id
        (fun p => if p = asciiStr "d/a.css" then .ok (asciiStr "x") else .error ⟨asciiStr "nope"⟩)
        (asciiStr "d")
        [⟨asciiStr "a.css", asciiStr "P", none, none, asciiStr "plaintext", none, none⟩]
        (asciiStr "out.h")
      = writeChunks ⟨none, none⟩ id id
        (fun p => .ok (if p = asciiStr "d/a.css" then asciiStr "x" else asciiStr "other"))
        (asciiStr "d")
        [⟨asciiStr "a.css", asciiStr "P", none, none, asciiStr "plaintext", none, none⟩]
        (asciiStr "out.h") :=
  c9_deterministic_output ⟨none, none⟩ id id
    (fun p => if p = asciiStr "d/a.css" then .ok (asciiStr "x") else .error ⟨asciiStr "nope"⟩)
    (fun p => .ok (if p = asciiStr "d/a.css" then asciiStr "x" else asciiStr "other"))
    (asciiStr "d")
    [⟨asciiStr "a.css", asciiStr "P", none, none, asciiStr "plaintext", none, none⟩]
    (asciiStr "out.h")
    (by
      intro s hs
      rw [List.mem_singleton] at hs
      subst hs
      decide)

/-- C2 (amended): for a `plaintext` spec with no filter, the content placed
between the configured prepend/append markers equals the source bytes with
only the render-context substitution applied, PROVIDED every source byte is
below `0x80`: the reader `buf.toString("ascii")` clears the high bit of each
byte, so the unamended claim (arbitrary source contents) is refuted by
`c2_counterexample` below. -/
theorem c2_plaintext_nofilter_identity (ctx : RenderCtx)
    (cssMin htmlMin : List Nat → List Nat) (fs : List Nat → Except JsError (List Nat))
    (srcDir : List Nat) (s : AssetSpec) (buf : List Nat)
    (hread : fs (srcDir ++ asciiStr "/" ++ s.file) = .ok buf)
    (hm : s.method = asciiStr "plaintext") (hf : s.filter = none)
    (hmg : s.mangle = none) (hascii : ∀ b ∈ buf, b < 128) :
    (specToChunk ctx cssMin htmlMin fs srcDir s).1
      = .ok (some (plainChunk srcDir s.file s.name (s.prepend.getD []) (s.append.getD [])
          (adoptVersionAndRepo ctx buf))) := by
  rw [specToChunk, if_pos hm, hread]
  simp only [hf, hmg, filter, applyMangle, toAscii_id hascii]

/-- C2 witness: a concrete all-ASCII stylesheet passes through byte-identically
(the trivial render context leaves it unchanged). -/
theorem c2_witness :
    (specToChunk ⟨none, none⟩ id id (fun _ => .ok (asciiStr "Hi")) (asciiStr "d")
        ⟨asciiStr "a.css", asciiStr "P", none, none, asciiStr "plaintext", none, none⟩).1
      = .ok (some (plainChunk (asciiStr "d") (asciiStr "a.css") (asciiStr "P") [] []
          (adoptVersionAndRepo ⟨none, none⟩ (asciiStr "Hi")))) :=
  c2_plaintext_nofilter_identity ⟨none, none⟩ id id (fun _ => .ok (asciiStr "Hi"))
    (asciiStr "d")
    ⟨asciiStr "a.css", asciiStr "P", none, none, asciiStr "plaintext", none, none⟩
    (asciiStr "Hi") rfl rfl rfl rfl (by decide)

/-- C2 counterexample: the unamended claim fails on a one-byte source file
containing `0xFF`.  With the trivial render context the substitution is the
identity, so the claim demands the chunk hold the source byte `0xFF` between
the markers; the code's `toString("ascii")` delivers `0x7F` instead, so the
rendered chunk differs from the claimed one. -/
theorem c2_counterexample :
    (specToChunk ⟨none, none⟩ id id (fun _ => .ok [255]) (asciiStr "d")
        ⟨asciiStr "f.bin", asciiStr "P", none, none, asciiStr "plaintext", none, none⟩).1
      ≠ .ok (some (plainChunk (asciiStr "d") (asciiStr "f.bin") (asciiStr "P") [] []
          (adoptVersionAndRepo ⟨none, none⟩ [255]))) := by
  decide

theorem specToChunk_read_error (ctx : RenderCtx) (cssMin htmlMin : List Nat → List Nat)
    (fs : List Nat → Except JsError (List Nat)) (srcDir : List Nat) (s : AssetSpec)
    (e : JsError) (hread : fs (srcDir ++ asciiStr "/" ++ s.file) = .error e)
    (hm : s.method = asciiStr "plaintext" ∨ s.method = asciiStr "binary") :
    specToChunk ctx cssMin htmlMin fs srcDir s = (.error e, []) := by
  rcases hm with hm | hm
  · rw [specToChunk, if_pos hm, hread]
  · rw [specToChunk, if_neg (by rw [hm]; decide), if_pos hm, hread]

/-- C5: when reading one spec's source file throws, that spec's chunk is
skipped (nothing is appended for it), a `Failed <name> from <dir>/<file>`
warning carrying the error message truncated to at most 60 characters is
emitted between the other specs' warnings, every other spec's chunk still
reaches the single written output file in order, and `writeChunks` still
returns normally (successful exit). -/
theorem c5_missing_asset_skipped (ctx : RenderCtx) (cssMin htmlMin : List Nat → List Nat)
    (fs : List Nat → Except JsError (List Nat)) (srcDir : List Nat)
    (pre : List AssetSpec) (s : AssetSpec) (post : List AssetSpec)
    (resultFile : List Nat) (e : JsError)
    (hread : fs (srcDir ++ asciiStr "/" ++ s.file) = .error e)
    (hm : s.method = asciiStr "plaintext" ∨ s.method = asciiStr "binary") :
    writeChunks ctx cssMin htmlMin fs srcDir (pre ++ s :: post) resultFile
        = ([(resultFile, chunkHeader
              ++ (pre.map (chunkTextOf ctx cssMin htmlMin fs srcDir)).flatten
              ++ (post.map (chunkTextOf ctx cssMin htmlMin fs srcDir)).flatten)],
           (pre.map (warnsOf ctx cssMin htmlMin fs srcDir)).flatten
             ++ [Warn.failed (asciiStr "Failed " ++ s.name ++ asciiStr " from " ++ srcDir
                   ++ asciiStr "/" ++ s.file) (truncateMsg e.message)]
             ++ (post.map (warnsOf ctx cssMin htmlMin fs srcDir)).flatten)
      ∧ (truncateMsg e.message).length ≤ 60 := by
  have hstc := specToChunk_read_error ctx cssMin htmlMin fs srcDir s e hread hm
  have htext : chunkTextOf ctx cssMin htmlMin fs srcDir s = [] := by
    rw [chunkTextOf, hstc]
    rfl
  have hwarn : warnsOf ctx cssMin htmlMin fs srcDir s
      = [Warn.failed (asciiStr "Failed " ++ s.name ++ asciiStr " from " ++ srcDir
          ++ asciiStr "/" ++ s.file) (truncateMsg e.message)] := by
    rw [warnsOf, hstc]
    rfl
  refine ⟨?_, truncateMsg_le e.message⟩
  rw [writeChunks_decomp]
  simp only [List.map_append, List.map_cons, List.flatten_append, List.flatten_cons,
    htext, hwarn]
  simp [List.append_assoc]

/-- C5 witness: in a concrete two-spec batch whose second source file is
missing, the output file still contains the first spec's chunk, the missing
asset yields only a truncated warning, and the run completes. -/
theorem c5_witness :
    writeChunks ⟨none, none⟩ id id
        (fun p => if p = asciiStr "d/a.css" then .ok (asciiStr "x")
          else .error ⟨asciiStr "ENOENT: no such file or directory"⟩)
        (asciiStr "d")
        ([⟨asciiStr "a.css", asciiStr "A", none, none, asciiStr "plaintext", none, none⟩]
          ++ ⟨asciiStr "b.htm", asciiStr "B", none, none, asciiStr "plaintext", none, none⟩ :: [])
        (asciiStr "out.h")
        = ([(asciiStr "out.h", chunkHeader
              ++ ([⟨asciiStr "a.css", asciiStr "A", none, none, asciiStr "plaintext", none, none⟩].map
                  (chunkTextOf ⟨none, none⟩ id id
                    (fun p => if p = asciiStr "d/a.css" then .ok (asciiStr "x")
                      else .error ⟨asciiStr "ENOENT: no such file or directory"⟩)
                    (asciiStr "d"))).flatten
              ++ (([] : List AssetSpec).map
                  (chunkTextOf ⟨none, none⟩ id id
                    (fun p => if p = asciiStr "d/a.css" then .ok (asciiStr "x")
                      else .error ⟨asciiStr "ENOENT: no such file or directory"⟩)
                    (asciiStr "d"))).flatten)],
            ([⟨asciiStr "a.css", asciiStr "A", none, none, asciiStr "plaintext", none, none⟩].map
                (warnsOf ⟨none, none⟩ id id
                  (fun p => if p = asciiStr "d/a.css" then .ok (asciiStr "x")
                    else .error ⟨asciiStr "ENOENT: no such file or directory"⟩)
                  (asciiStr "d"))).flatten
              ++ [Warn.failed (asciiStr "Failed " ++ asciiStr "B" ++ asciiStr " from "
                    ++ asciiStr "d" ++ asciiStr "/" ++ asciiStr "b.htm")
                  (truncateMsg (asciiStr "ENOENT: no such file or directory"))]
              ++ (([] : List AssetSpec).map
                  (warnsOf ⟨none, none⟩ id id
                    (fun p => if p = asciiStr "d/a.css" then .ok (asciiStr "x")
                      else .error ⟨asciiStr "ENOENT: no such file or directory"⟩)
                    (asciiStr "d"))).flatten)
      ∧ (truncateMsg (asciiStr "ENOENT: no such file or directory")).length ≤ 60 :=
  c5_missing_asset_skipped ⟨none, none⟩ id id
    (fun p => if p = asciiStr "d/a.css" then .ok (asciiStr "x")
      else .error ⟨asciiStr "ENOENT: no such file or directory"⟩)
    (asciiStr "d")
    [⟨asciiStr "a.css", asciiStr "A", none, none, asciiStr "plaintext", none, none⟩]
    ⟨asciiStr "b.htm", asciiStr "B", none, none, asciiStr "plaintext", none, none⟩ []
    (asciiStr "out.h") ⟨asciiStr "ENOENT: no such file or directory"⟩
    (by decide) (Or.inl rfl)

/-- C3: the compressor is fed exactly the render-context-substituted inlined
document, the emitted array literal prints exactly the compressed bytes
(decoding the printed hex text recovers them), and a successful
`writeHtmlGzipped` writes exactly that rendering; hence for any gzip whose
decompressor is a left inverse — zlib's contract — decompressing the
produced byte array yields exactly the substituted document. -/
theorem c3_gzip_roundtrip (gzip : List Nat → Except JsError (List Nat))
    (gunzip : List Nat → List Nat) (ctx : RenderCtx)
    (html result sourceFile resultFile : List Nat)
    (hinv : ∀ b r, gzip b = .ok r → gunzip r = b)
    (hok : compressHtml gzip ctx html = .ok result)
    (hbytes : ∀ b ∈ result, b < 256) :
    gunzip result = adoptVersionAndRepo ctx html
      ∧ hexParse (hexdump result) = result
      ∧ writeHtmlGzipped gzip ctx (none, some html) sourceFile resultFile
          = .ok [(resultFile, renderIndexChunk sourceFile result)] := by
  refine ⟨hinv (adoptVersionAndRepo ctx html) result hok, hexParse_hexdump result hbytes, ?_⟩
  simp only [writeHtmlGzipped, hok]

/-- C3 witness: with the identity as a (trivially invertible) compressor, a
concrete document round-trips through the pipeline unchanged. -/
theorem c3_witness :
    id (asciiStr "<h1>WLED</h1>")
        = adoptVersionAndRepo ⟨none, none⟩ (asciiStr "<h1>WLED</h1>")
      ∧ hexParse (hexdump (asciiStr "<h1>WLED</h1>")) = asciiStr "<h1>WLED</h1>"
      ∧ writeHtmlGzipped (fun b => .ok b) ⟨none, none⟩ (none, some (asciiStr "<h1>WLED</h1>"))
          (asciiStr "index.htm") (asciiStr "html_ui.h")
        = .ok [(asciiStr "html_ui.h",
            renderIndexChunk (asciiStr "index.htm") (asciiStr "<h1>WLED</h1>"))] :=
  c3_gzip_roundtrip (fun b => .ok b) id ⟨none, none⟩ (asciiStr "<h1>WLED</h1>")
    (asciiStr "<h1>WLED</h1>") (asciiStr "index.htm") (asciiStr "html_ui.h")
    (fun b r h => by cases h; rfl) rfl (by decide)

/-- C8: with a project version in the usual dotted-numeral form — non-empty
and sharing no character with the placeholder, as `"1.2.3"` does — the
version substitution (the last stage of `adoptVersionAndRepo`) leaves no
occurrence of `##VERSION##` in any output document, and each occurrence is
rewritten to the literal version string (`strReplace` replaces every
occurrence left to right, not only the first). -/
theorem c8_version_token_replaced (ctx : RenderCtx) (doc v : List Nat)
    (hv : ctx.version = some v) (hne : v ≠ [])
    (hdisj : ∀ c ∈ v, c ∉ versionToken) :
    ¬ occursIn versionToken (adoptVersionAndRepo ctx doc)
      ∧ ∀ t, strReplace (versionToken ++ t) versionToken v
          = v ++ strReplace t versionToken v := by
  have htok : versionToken ≠ [] := by decide
  constructor
  · simp only [adoptVersionAndRepo, hv]
    have htr : jsTruthy (some v) = true := by
      simp [jsTruthy, hne]
    rw [htr]
    simp only [if_true, Option.getD_some]
    rw [strReplace_eq_replaceAll _ _ _ htok]
    exact replaceAll_no_occ htok hne hdisj _ _ le_rfl
  · intro t
    rw [strReplace_eq_replaceAll _ _ _ htok, strReplace_eq_replaceAll _ _ _ htok,
      replaceAll_head_occ v t htok]

/-- C8 witness: with version `1.2.3`, a concrete document keeps no
`##VERSION##` occurrence, and a leading occurrence becomes the literal
`1.2.3`. -/
theorem c8_witness :
    ¬ occursIn versionToken (adoptVersionAndRepo ⟨none, some (asciiStr "1.2.3")⟩
        (asciiStr "v##VERSION## (##VERSION##)"))
      ∧ strReplace (versionToken ++ asciiStr "!") versionToken (asciiStr "1.2.3")
          = asciiStr "1.2.3" ++ strReplace (asciiStr "!") versionToken (asciiStr "1.2.3") :=
  ⟨(c8_version_token_replaced ⟨none, some (asciiStr "1.2.3")⟩
      (asciiStr "v##VERSION## (##VERSION##)") (asciiStr "1.2.3")
      rfl (by decide) (by decide)).1,
   (c8_version_token_replaced ⟨none, some (asciiStr "1.2.3")⟩
      (asciiStr "v##VERSION## (##VERSION##)") (asciiStr "1.2.3")
      rfl (by decide) (by decide)).2 (asciiStr "!")⟩

end Cdata
